import Mathlib

/-!
# Verification of the SH-wynntracker change-detection and versioning core

A shallow embedding, in Lean 4, of the core of the `SH-wynntracker`
repository: the change detector and temporal versioning engine
(`backend/app/crud.py`), the per-entity fetch scheduler
(`backend/app/services/tracker.py`), the bulk parquet replay
(`backend/app/services/migration.py`) and the snapshot extractor
(`backend/app/services/wynncraft_api.py`).

Python dictionaries holding stat values are modelled as association
lists whose values live in an arbitrary type `V` with decidable
equality (the Python code only ever compares values with `!=`);
instants (`datetime`) are modelled as integers (seconds).
-/

set_option autoImplicit false
set_option linter.unusedSectionVars false

namespace Wynntracker

variable {V : Type} [DecidableEq V]

/-- A Python dict of stat values: keys to optional values.  An entry whose
value is `none` models a key explicitly set to Python `None`. -/
abbrev StatDict (V : Type) := List (String × Option V)

/-- `d.get(k)` on a Python dict: `none` both when the key is absent and when
it is present with value `None`. -/
def dictGet (d : StatDict V) (k : String) : Option V :=
  match d.find? (fun p => p.1 == k) with
  | some p => p.2
  | none => none

/-- `STATS_COMPARE_FIELDS` from `crud.py`: the fixed set of comparable
fields, identical to the stat columns persisted in `CharacterStats`. -/
def STATS_COMPARE_FIELDS : List String :=
  ["level", "total_level", "xp", "xp_percent", "playtime_hours",
   "mobs_killed", "chests_found", "blocks_walked", "items_identified",
   "logins", "deaths", "discoveries", "content_completion", "wars",
   "pvp_kills", "pvp_deaths", "dungeons_total", "raids_total",
   "world_events", "caves", "lootruns", "quests_count",
   "skill_points", "professions", "dungeons", "raids", "quests_list"]

/-- A persisted `CharacterStats` row (`models.py`): autoincrement primary
key `id`, owning character, validity bounds, and the stored stat fields
(attribute access `getattr(row, field, None)` is `dictGet row.stats`). -/
structure CharacterStats (V : Type) where
  id : Nat
  character_uuid : String
  valid_from : Int
  valid_until : Option Int
  stats : StatDict V
  deriving DecidableEq

/-- `stats_changed` from `crud.py`: `True` when there is no previous row,
otherwise `True` iff some field of `STATS_COMPARE_FIELDS` differs between
the stored row and the candidate dict. -/
def stats_changed (old_stats : Option (CharacterStats V)) (new_stats : StatDict V) : Bool :=
  match old_stats with
  | none => true
  | some old => STATS_COMPARE_FIELDS.any
      (fun field => decide (dictGet old.stats field ≠ dictGet new_stats field))

/-- The dict comprehension `{k: v for k, v in stats_data.items() if k in
STATS_COMPARE_FIELDS}` used when constructing a new `CharacterStats` row. -/
def restrictStats (stats_data : StatDict V) : StatDict V :=
  stats_data.filter (fun p => STATS_COMPARE_FIELDS.contains p.1)

/-- A tracked character (`models.py`): the fields the scheduler core uses. -/
structure Character where
  uuid : String
  player_uuid : String
  last_fetched_at : Option Int
  deriving DecidableEq

/-! ## Scheduler helpers (`tracker.py`) -/

/-- `should_fetch` from `tracker.py`, with the module state made explicit:
`intervalMin` is `FETCH_INTERVAL_MINUTES` and `now` is `datetime.now()`.
Times are in seconds, so `timedelta(minutes=i)` is `i * 60`. -/
def should_fetch (intervalMin : Int) (last_fetched_at : Option Int) (now : Int) : Bool :=
  match last_fetched_at with
  | none => true
  | some last =>
    let elapsed := now - last
    if elapsed < 0 then true
    else decide (elapsed ≥ intervalMin * 60)

/-- `time_until_next_fetch` from `tracker.py`:
`max(last + interval - now, 0)` once a fetch has happened, else zero. -/
def time_until_next_fetch (intervalMin : Int) (last_fetched_at : Option Int) (now : Int) : Int :=
  match last_fetched_at with
  | none => 0
  | some last =>
    let next_fetch := last + intervalMin * 60
    let remaining := next_fetch - now
    max remaining 0

/-! ## The versioned history store (`crud.py` over `models.py`) -/

/-- The relevant database state: the `characters` table, the
`character_stats` table in insertion order, and the autoincrement
counter for the stats primary key. -/
structure DB (V : Type) where
  characters : List Character
  statsRows : List (CharacterStats V)
  nextId : Nat
  deriving DecidableEq

def emptyDB : DB V := ⟨[], [], 0⟩

/-- All stats rows of one character, in insertion order (the SQL filter
`character_uuid == uuid`). -/
def entityHistory (db : DB V) (uuid : String) : List (CharacterStats V) :=
  db.statsRows.filter (fun r => r.character_uuid == uuid)

/-- `ORDER BY valid_from DESC` + `first()`: the row with the greatest
`valid_from` (on a tie, the earliest-inserted one, as a stable
descending sort would give). -/
def pickLatest : List (CharacterStats V) → Option (CharacterStats V)
  | [] => none
  | r :: rest =>
    match pickLatest rest with
    | none => some r
    | some best => if best.valid_from > r.valid_from then some best else some r

/-- `get_latest_stats` from `crud.py`. -/
def get_latest_stats (db : DB V) (character_uuid : String) : Option (CharacterStats V) :=
  pickLatest (entityHistory db character_uuid)

/-- `latest.valid_until = datetime.utcnow()` on the row found by
`get_latest_stats`: update the row with the given primary key. -/
def closeRow (i : Nat) (t : Int) (rows : List (CharacterStats V)) : List (CharacterStats V) :=
  rows.map (fun r => if r.id == i then { r with valid_until := some t } else r)

/-- `create_stats_if_changed` from `crud.py`, with `datetime.utcnow()`
made the explicit parameter `now`.  Returns the created row (if any)
and the new database state. -/
def create_stats_if_changed (db : DB V) (character_uuid : String) (stats_data : StatDict V)
    (now : Int) : Option (CharacterStats V) × DB V :=
  let latest := get_latest_stats db character_uuid
  if stats_changed latest stats_data = false then (none, db)
  else
    let db1 :=
      match latest with
      | some l =>
        if l.valid_until = none then { db with statsRows := closeRow l.id now db.statsRows }
        else db
      | none => db
    let db_stats : CharacterStats V :=
      { id := db1.nextId
        character_uuid := character_uuid
        valid_from := now
        valid_until := none
        stats := restrictStats stats_data }
    (some db_stats, { db1 with statsRows := db1.statsRows ++ [db_stats], nextId := db1.nextId + 1 })

/-- `update_character_last_fetched` finds the character via
`get_character` (first match) and sets its `last_fetched_at`; with no
matching character it silently does nothing. -/
def setFetchedFirst (uuid : String) (now : Int) : List Character → List Character
  | [] => []
  | c :: rest =>
    if c.uuid == uuid then { c with last_fetched_at := some now } :: rest
    else c :: setFetchedFirst uuid now rest

/-- `update_character_last_fetched` from `crud.py`, with
`datetime.utcnow()` the explicit parameter `now`. -/
def update_character_last_fetched (db : DB V) (character_uuid : String) (now : Int) : DB V :=
  { db with characters := setFetchedFirst character_uuid now db.characters }

/-! ## The scheduler cycle (`run_tracker` in `tracker.py`)

One cycle of `run_tracker` iterates all characters and, for each due one,
runs `fetch_and_update_character`.  The body of that call (network fetch,
extraction, store writes) is abstracted as a collaborator
`proc : Character → σ → σ × Bool` returning the state after the call and
whether the call raised an exception (the partial state survives, since
the store is mutated in place).  The `try` in `run_tracker` wraps the
whole `for` loop, so a raise leaves the loop at once; the `except`
swallows it and the `while True:` continues with the next cycle. -/

section Cycle

variable {σ : Type}

/-- The `for character in characters:` loop inside the `try`: returns the
state when the loop ends or the exception escapes it, plus whether an
exception escaped. -/
def cycleLoop (proc : Character → σ → σ × Bool) (intervalMin now : Int) :
    List Character → σ → σ × Bool
  | [], s => (s, false)
  | c :: rest, s =>
    if should_fetch intervalMin c.last_fetched_at now then
      match proc c s with
      | (s2, true) => (s2, true)
      | (s2, false) => cycleLoop proc intervalMin now rest s2
    else cycleLoop proc intervalMin now rest s

/-- The same loop under the assumption that no call raises: every due
character is processed in order. -/
def processList (proc : Character → σ → σ × Bool) (intervalMin now : Int) :
    List Character → σ → σ
  | [], s => s
  | c :: rest, s =>
    if should_fetch intervalMin c.last_fetched_at now then
      processList proc intervalMin now rest (proc c s).1
    else processList proc intervalMin now rest s

/-- `run_tracker`, fuelled by the number of cycles until cancellation:
each cycle re-reads the character list from the state, runs the loop
inside `try`, and discards any escaped exception (`except ... log`). -/
def run_tracker (proc : Character → σ → σ × Bool) (intervalMin : Int) (clock : Nat → Int)
    (getChars : σ → List Character) : Nat → σ → σ
  | 0, s => s
  | n + 1, s =>
    run_tracker proc intervalMin clock getChars n
      (cycleLoop proc intervalMin (clock n) (getChars s) s).1

end Cycle

/-! ## Bulk parquet replay (`migrate_parquet` in `migration.py`)

The per-entity inner loop: rows of one `(player_uuid, character_uuid)`
group, sorted by timestamp, are folded with a running `prev_stats` (the
last row created for this group, always the last element of the
accumulator).  When `stats_changed(prev_stats, stats_data)` holds, the
open previous row is closed at the new row's `valid_from` and a new open
row is appended. -/

/-- `prev_stats.valid_until = valid_from` when `prev_stats` is open:
close the last created row (the last accumulator element) if open. -/
def closeLastRow (t : Int) (acc : List (CharacterStats V)) : List (CharacterStats V) :=
  match acc.getLast? with
  | none => acc
  | some l =>
    if l.valid_until = none then acc.dropLast ++ [{ l with valid_until := some t }]
    else acc

/-- The row object created by `migrate_parquet` for one changed snapshot
(`id` is irrelevant to the replay logic and set to the position). -/
def migRow (character_uuid : String) (n : Nat) (ts : Int) (stats_data : StatDict V) :
    CharacterStats V :=
  { id := n
    character_uuid := character_uuid
    valid_from := ts
    valid_until := none
    stats := restrictStats stats_data }

/-- The inner replay loop of `migrate_parquet` for one character: `rows`
are `(timestamp, stats_data)` pairs in group order, `acc` the stats rows
created so far for this group (its last element is `prev_stats`). -/
def migrateRows (character_uuid : String) :
    List (Int × StatDict V) → List (CharacterStats V) → List (CharacterStats V)
  | [], acc => acc
  | (ts, stats_data) :: rest, acc =>
    if stats_changed acc.getLast? stats_data then
      migrateRows character_uuid rest
        (closeLastRow ts acc ++ [migRow character_uuid acc.length ts stats_data])
    else migrateRows character_uuid rest acc

/-! ## The snapshot extractor (`extract_character_stats` in `wynncraft_api.py`)

The JSON payload of one character is modelled structurally: scalar stat
values stay abstract in `V` (`none` = key absent or `null`), the nested
`pvp` / `dungeons` / `raids` objects and the `skillPoints` /
`professions` mappings and `quests` list are explicit.  Extracted stat
values land in `StatVal V`, covering the shapes the extractor produces:
raw scalars, sub-mappings, the computed quest count and the joined
quest-list string. -/

inductive StatVal (V : Type) where
  | scalar (v : V)
  | smap (m : List (String × V))
  | int (n : Int)
  | str (s : String)
  deriving DecidableEq

/-- `character["pvp"]`: an object with `kills` and `deaths`. -/
structure ApiPvp (V : Type) where
  kills : Option V
  deaths : Option V

/-- `character["dungeons"]` / `character["raids"]`: `total` plus a `list`
mapping. -/
structure ApiTotalList (V : Type) where
  total : Option V
  list : Option (List (String × V))

/-- One entry of `api_data["characters"]`. -/
structure ApiCharacter (V : Type) where
  level : Option V
  totalLevel : Option V
  xp : Option V
  xpPercent : Option V
  playtime : Option V
  mobsKilled : Option V
  chestsFound : Option V
  blocksWalked : Option V
  itemsIdentified : Option V
  logins : Option V
  deaths : Option V
  discoveries : Option V
  contentCompletion : Option V
  wars : Option V
  worldEvents : Option V
  caves : Option V
  lootruns : Option V
  pvp : Option (ApiPvp V)
  dungeons : Option (ApiTotalList V)
  raids : Option (ApiTotalList V)
  skillPoints : Option (List (String × V))
  professions : Option (List (String × V))
  quests : Option (List String)

/-- `m if m else None`: Python truthiness of a mapping. -/
def mapOrNone (m : List (String × V)) : Option (StatVal V) :=
  if m.isEmpty then none else some (StatVal.smap m)

/-- Entries `"level"` through `"content_completion"` of the dict returned
by `extract_character_stats`, in source order (split into three chunks
purely to keep elaboration fast; the concatenation below preserves the
source's entry order exactly). -/
def extractScalarsA (c : ApiCharacter V) : StatDict (StatVal V) :=
  [("level", c.level.map StatVal.scalar),
   ("total_level", c.totalLevel.map StatVal.scalar),
   ("xp", c.xp.map StatVal.scalar),
   ("xp_percent", c.xpPercent.map StatVal.scalar),
   ("playtime_hours", c.playtime.map StatVal.scalar),
   ("mobs_killed", c.mobsKilled.map StatVal.scalar),
   ("chests_found", c.chestsFound.map StatVal.scalar),
   ("blocks_walked", c.blocksWalked.map StatVal.scalar),
   ("items_identified", c.itemsIdentified.map StatVal.scalar),
   ("logins", c.logins.map StatVal.scalar),
   ("deaths", c.deaths.map StatVal.scalar),
   ("discoveries", c.discoveries.map StatVal.scalar),
   ("content_completion", c.contentCompletion.map StatVal.scalar)]

/-- Entries `"wars"` through `"lootruns"` of the extracted dict. -/
def extractScalarsB (c : ApiCharacter V) : StatDict (StatVal V) :=
  [("wars", c.wars.map StatVal.scalar),
   ("pvp_kills", (c.pvp.bind ApiPvp.kills).map StatVal.scalar),
   ("pvp_deaths", (c.pvp.bind ApiPvp.deaths).map StatVal.scalar),
   ("dungeons_total", (c.dungeons.bind ApiTotalList.total).map StatVal.scalar),
   ("raids_total", (c.raids.bind ApiTotalList.total).map StatVal.scalar),
   ("world_events", c.worldEvents.map StatVal.scalar),
   ("caves", c.caves.map StatVal.scalar),
   ("lootruns", c.lootruns.map StatVal.scalar)]

/-- Entries `"quests_count"` through `"quests_list"` of the extracted
dict: the normalized structured fields.  `get(k, {})` on an absent nested
object yields the empty mapping, hence the `getD []`. -/
def extractStructured (c : ApiCharacter V) : StatDict (StatVal V) :=
  let skill_points := c.skillPoints.getD []
  let professions := c.professions.getD []
  let dungeons_list := (match c.dungeons with | none => [] | some d => d.list.getD [])
  let raids_list := (match c.raids with | none => [] | some r => r.list.getD [])
  let quests := c.quests.getD []
  [("quests_count", some (StatVal.int quests.length)),
   ("skill_points", mapOrNone skill_points),
   ("professions", mapOrNone professions),
   ("dungeons", mapOrNone dungeons_list),
   ("raids", mapOrNone raids_list),
   ("quests_list", if quests.isEmpty then none
                   else some (StatVal.str (String.intercalate ";" quests)))]

/-- The body of `extract_character_stats` after the character lookup:
the returned stats dict, entries in source order. -/
def extractStatsOfChar (c : ApiCharacter V) : StatDict (StatVal V) :=
  extractScalarsA c ++ extractScalarsB c ++ extractStructured c

/-- `extract_character_stats` from `wynncraft_api.py`: look the character
up in `api_data["characters"]`, `none` when absent. -/
def extract_character_stats (character_uuid : String)
    (api_characters : List (String × ApiCharacter V)) : Option (StatDict (StatVal V)) :=
  match api_characters.find? (fun p => p.1 == character_uuid) with
  | none => none
  | some p => some (extractStatsOfChar p.2)

/-! ## Invariant checkers and operation sequences -/

/-- The claimed versioning invariant on one entity's history, checked on
the list as stored (which the theorems below show is already sorted by
`valid_from`): adjacent rows have nondecreasing `valid_from` and every
non-final row is closed with `valid_until` at or before the next row's
`valid_from`. -/
def chainOk : List (CharacterStats V) → Bool
  | [] => true
  | [_] => true
  | a :: b :: rest =>
    (match a.valid_until with
     | some t => decide (t ≤ b.valid_from)
     | none => false) &&
    decide (a.valid_from ≤ b.valid_from) && chainOk (b :: rest)

/-- The number of open versions (`valid_until = null`) in a history. -/
def openCount (h : List (CharacterStats V)) : Nat :=
  (h.filter (fun r => r.valid_until.isNone)).length

/-- One `append_if_changed` call: target entity, the `utcnow()` instant
and the candidate stats dict. -/
structure StoreOp (V : Type) where
  uuid : String
  now : Int
  stats_data : StatDict V

def applyOp (db : DB V) (op : StoreOp V) : DB V :=
  (create_stats_if_changed db op.uuid op.stats_data op.now).2

/-- The store reached by a sequence of `create_stats_if_changed` calls
starting from the empty database. -/
def runOps (ops : List (StoreOp V)) : DB V :=
  ops.foldl applyOp emptyDB

/-- The strong per-entity shape every reachable history has: strictly
increasing `valid_from`, every row closed at or before its successor's
`valid_from`, and the final row open. -/
def HistShape (h : List (CharacterStats V)) : Prop :=
  List.Chain'
    (fun a b => a.valid_from < b.valid_from ∧
      ∃ t, a.valid_until = some t ∧ t ≤ b.valid_from) h ∧
  ∀ l, h.getLast? = some l → l.valid_until = none

/-- The inductive invariant of the store under `create_stats_if_changed`:
primary keys are fresh and distinct, all instants are bounded by `b`, and
every entity's history has the strong shape. -/
def Inv (db : DB V) (b : Int) : Prop :=
  (∀ r ∈ db.statsRows, r.id < db.nextId) ∧
  (db.statsRows.map (fun r => r.id)).Nodup ∧
  (∀ r ∈ db.statsRows, r.valid_from ≤ b ∧ ∀ t, r.valid_until = some t → t ≤ b) ∧
  ∀ u, HistShape (entityHistory db u)

/-! ## Reference replay (claim C9's words) -/

/-- Whether two raw snapshots differ on some comparable field. -/
def snapshotsDiffer (s0 s : StatDict V) : Bool :=
  STATS_COMPARE_FIELDS.any (fun f => decide (dictGet s0 f ≠ dictGet s f))

/-- Reference function following the claim's words, to be compared with
`migrateRows`: one `StatVersion` per maximal run of consecutive identical
snapshots; each version's `valid_from` is the input timestamp of the
first snapshot of its run, its `valid_until` the `valid_from` of the next
created version (`none` for the last).  `t0`/`s0` are the current run's
first timestamp and snapshot, `n` the number of versions already emitted. -/
def specReplay (uuid : String) : Int → StatDict V → Nat → List (Int × StatDict V) →
    List (CharacterStats V)
  | t0, s0, n, [] => [migRow uuid n t0 s0]
  | t0, s0, n, (t, s) :: rest =>
    if snapshotsDiffer s0 s then
      { migRow uuid n t0 s0 with valid_until := some t } :: specReplay uuid t s (n + 1) rest
    else specReplay uuid t0 s0 n rest

def specReplayTop (uuid : String) : List (Int × StatDict V) → List (CharacterStats V)
  | [] => []
  | (t, s) :: rest => specReplay uuid t s 0 rest

/-! ## Concrete collaborator for the scheduler counterexample -/

/-- A `fetch_and_update_character` collaborator over a log-of-uuids state:
it raises on character `"a"` (leaving the state untouched) and records
any other character's uuid. -/
def procStub : Character → List String → List String × Bool :=
  fun c s => if c.uuid == "a" then (s, true) else (c.uuid :: s, false)

/-! ## Helper lemmas -/

theorem dictGet_cons (p : String × Option V) (rest : StatDict V) (k : String) :
    dictGet (p :: rest) k = if p.1 == k then p.2 else dictGet rest k := by
  cases h : p.1 == k <;> simp [dictGet, List.find?, h]

theorem dictGet_restrict (d : StatDict V) (f : String) (hf : f ∈ STATS_COMPARE_FIELDS) :
    dictGet (restrictStats d) f = dictGet d f := by
  induction d with
  | nil => rfl
  | cons p rest ih =>
    rw [restrictStats, List.filter_cons]
    by_cases hk : p.1 == f
    · have hkf : p.1 = f := by simpa using hk
      have hc : STATS_COMPARE_FIELDS.contains p.1 = true := by
        rw [hkf]; exact List.elem_eq_true_of_mem hf
      simp only [hc, if_true, dictGet_cons, hk, if_pos]
    · by_cases hc : STATS_COMPARE_FIELDS.contains p.1 = true
      · simp only [hc, if_true, dictGet_cons, hk, if_neg, Bool.false_eq_true,
          not_false_iff, if_false]
        exact ih
      · simp only [Bool.not_eq_true] at hc
        simp only [hc, Bool.false_eq_true, if_false, dictGet_cons, hk]
        rw [restrictStats] at ih
        rw [ih]

theorem stats_changed_restrict_self (i : Nat) (u : String) (t : Int) (tu : Option Int)
    (sd : StatDict V) :
    stats_changed (some ⟨i, u, t, tu, restrictStats sd⟩) sd = false := by
  simp only [stats_changed, List.any_eq_false, decide_eq_true_eq]
  intro f hf
  simp [dictGet_restrict sd f hf]

theorem any_congr_vals {α : Type} (l : List α) (p q : α → Bool)
    (h : ∀ a ∈ l, p a = q a) : l.any p = l.any q := by
  induction l with
  | nil => rfl
  | cons a rest ih =>
    simp only [List.any_cons, h a (by simp), ih (fun x hx => h x (by simp [hx]))]

/-! ## Claim C5: the change detector -/

/-- C5: `stats_changed` returns true unconditionally when `previous` is
absent; otherwise it is true iff some field of `STATS_COMPARE_FIELDS`
differs between the stored row and the candidate (dict lookup returning
`none` for absent fields, so absent counts as null and absent/present
transitions count); candidates agreeing on every comparable field are
indistinguishable, so fields outside the set never influence the result. -/
theorem stats_changed_spec (old : CharacterStats V) (sd sd2 : StatDict V)
    (h : ∀ f ∈ STATS_COMPARE_FIELDS, dictGet sd f = dictGet sd2 f) :
    stats_changed (V := V) none sd = true ∧
    (stats_changed (some old) sd = true ↔
      ∃ f ∈ STATS_COMPARE_FIELDS, dictGet old.stats f ≠ dictGet sd f) ∧
    stats_changed (some old) sd = stats_changed (some old) sd2 := by
  refine ⟨rfl, ?_, ?_⟩
  · simp [stats_changed, List.any_eq_true]
  · simp only [stats_changed]
    apply any_congr_vals
    intro f hf
    simp [h f hf]

/-- Witness for C5 at concrete inputs: the candidates differ only in the
non-comparable field `"foo"`, and the result is unchanged by it. -/
theorem stats_changed_spec_witness :
    stats_changed (V := Int) none [("level", some 2)] = true ∧
    (stats_changed (V := Int) (some ⟨0, "c", 0, none, [("level", some 1)]⟩)
        [("level", some 2)] = true ↔
      ∃ f ∈ STATS_COMPARE_FIELDS,
        dictGet (V := Int) [("level", some 1)] f ≠ dictGet (V := Int) [("level", some 2)] f) ∧
    stats_changed (V := Int) (some ⟨0, "c", 0, none, [("level", some 1)]⟩)
        [("level", some 2)] =
      stats_changed (V := Int) (some ⟨0, "c", 0, none, [("level", some 1)]⟩)
        [("level", some 2), ("foo", some 9)] :=
  stats_changed_spec ⟨0, "c", 0, none, [("level", some 1)]⟩ [("level", some 2)]
    [("level", some 2), ("foo", some 9)] (by decide)

/-! ## Claim C8: the due predicate -/

/-- C8: an entity is due exactly when `last_fetched_at` is null, in the
future (clock skew, due immediately), or at least `interval` in the past;
with a 15-minute interval, 20 minutes ago is due, 5 minutes ago is not,
and null is due. -/
theorem should_fetch_spec (intervalMin : Int) (last : Option Int) (now : Int) :
    (should_fetch intervalMin last now = true ↔
      (last = none ∨ ∃ l, last = some l ∧ (now - l < 0 ∨ intervalMin * 60 ≤ now - l))) ∧
    should_fetch 15 none now = true ∧
    should_fetch 15 (some (now - 20 * 60)) now = true ∧
    should_fetch 15 (some (now - 5 * 60)) now = false := by
  refine ⟨?_, rfl, ?_, ?_⟩
  · cases last with
    | none => simp [should_fetch]
    | some l =>
      have hsf : should_fetch intervalMin (some l) now =
          (decide (now - l < 0) || decide (intervalMin * 60 ≤ now - l)) := by
        simp only [should_fetch]
        by_cases hlt : now - l < 0
        · simp [hlt]
        · simp [hlt, ge_iff_le]
      rw [hsf]
      simp only [Bool.or_eq_true, decide_eq_true_eq, reduceCtorEq,
        Option.some.injEq, false_or]
      constructor
      · intro hc; exact ⟨l, rfl, hc⟩
      · rintro ⟨l', hl', hc⟩; cases hl'; exact hc
  · simp [should_fetch]
  · simp [should_fetch]

/-! ## Claim C7: time_until_next_fetch -/

/-- C7 counterexample: an entity with a future `last_fetched_at`
(clock-skew case) is due according to `should_fetch`, yet
`time_until_next_fetch` returns `interval + (last - now) = 1500`, not
zero — refuting "returns zero for every entity that is already due". -/
theorem time_until_due_counterexample :
    should_fetch 15 (some 600) 0 = true ∧
    time_until_next_fetch 15 (some 600) 0 = 1500 ∧
    time_until_next_fetch 15 (some 600) 0 ≠ 0 := by
  refine ⟨rfl, by decide, by decide⟩

/-- C7 amended: `time_until_next_fetch` is pure and never negative; it
returns zero when `last_fetched_at` is null and, for a fetched entity,
`max(interval - (now - last), 0)` — hence zero whenever
`now - last ≥ interval` — but in the clock-skew case (future
`last_fetched_at`, which the due predicate treats as due) it returns the
strictly positive `interval + (last - now)` rather than zero. -/
theorem time_until_next_fetch_spec (intervalMin : Int) (last : Option Int) (now : Int)
    (hi : 0 ≤ intervalMin) :
    0 ≤ time_until_next_fetch intervalMin last now ∧
    (last = none → time_until_next_fetch intervalMin last now = 0) ∧
    (∀ l, last = some l →
      time_until_next_fetch intervalMin last now = max (intervalMin * 60 - (now - l)) 0) ∧
    (∀ l, last = some l → intervalMin * 60 ≤ now - l →
      time_until_next_fetch intervalMin last now = 0) ∧
    (∀ l, last = some l → now < l →
      0 < time_until_next_fetch intervalMin last now) := by
  refine ⟨?_, ?_, ?_, ?_, ?_⟩
  · cases last with
    | none => simp [time_until_next_fetch]
    | some l => simp only [time_until_next_fetch]; omega
  · rintro rfl; rfl
  · rintro l rfl; simp only [time_until_next_fetch]; omega
  · rintro l rfl hle; simp only [time_until_next_fetch]; omega
  · rintro l rfl hlt; simp only [time_until_next_fetch]; omega

/-- Witness for C7's amended theorem at `interval = 15`, `last = 600`,
`now = 0`. -/
theorem time_until_next_fetch_spec_witness :
    0 ≤ time_until_next_fetch 15 (some 600) 0 ∧
    (some (600 : Int) = none → time_until_next_fetch 15 (some 600) 0 = 0) ∧
    (∀ l : Int, some (600 : Int) = some l →
      time_until_next_fetch 15 (some 600) 0 = max (15 * 60 - (0 - l)) 0) ∧
    (∀ l : Int, some (600 : Int) = some l → 15 * 60 ≤ 0 - l →
      time_until_next_fetch 15 (some 600) 0 = 0) ∧
    (∀ l : Int, some (600 : Int) = some l → 0 < l →
      0 < time_until_next_fetch 15 (some 600) 0) :=
  time_until_next_fetch_spec 15 (some 600) 0 (by decide)

/-! ## Claim C4: unknown-entity behaviour -/

theorem setFetchedFirst_no_match (uuid : String) (now : Int) (cs : List Character)
    (h : ∀ c ∈ cs, c.uuid ≠ uuid) : setFetchedFirst uuid now cs = cs := by
  induction cs with
  | nil => rfl
  | cons c rest ih =>
    have hc : (c.uuid == uuid) = false := by
      simp only [beq_eq_false_iff_ne, ne_eq]
      exact h c (by simp)
    simp only [setFetchedFirst, hc, Bool.false_eq_true, if_false, List.cons.injEq, true_and]
    exact ih (fun c' hc' => h c' (by simp [hc']))

/-- C4 counterexample: on the empty database, `"x"` is unknown, yet
`update_character_last_fetched` silently does nothing (it returns with
the store unchanged rather than failing with `UnknownEntity`), and
`create_stats_if_changed` performs no existence check: it creates and
persists a `StatVersion` for the unknown entity. -/
theorem unknown_entity_counterexample :
    update_character_last_fetched (V := Int) emptyDB "x" 5 = emptyDB ∧
    (create_stats_if_changed (V := Int) emptyDB "x" [] 0).1.isSome = true ∧
    entityHistory (create_stats_if_changed (V := Int) emptyDB "x" [] 0).2 "x" ≠ [] := by
  refine ⟨by decide, by decide, by decide⟩

/-- C4 amended: neither operation fails with `UnknownEntity`.  For an
entity id with no character row, `update_character_last_fetched` is a
silent no-op (the store is returned unchanged), and
`create_stats_if_changed` performs no registry check at all: for an
entity id with no history it unconditionally creates a version (which is
appended to that id's history). -/
theorem unknown_entity_spec (db : DB V) (uuid : String) (sd : StatDict V) (now t : Int)
    (hc : ∀ c ∈ db.characters, c.uuid ≠ uuid) :
    update_character_last_fetched db uuid t = db ∧
    (entityHistory db uuid = [] →
      (create_stats_if_changed db uuid sd now).1.isSome = true ∧
      entityHistory (create_stats_if_changed db uuid sd now).2 uuid =
        [(⟨db.nextId, uuid, now, none, restrictStats sd⟩ : CharacterStats V)]) := by
  constructor
  · simp only [update_character_last_fetched, setFetchedFirst_no_match uuid t db.characters hc]
  · intro hh
    have hlatest : get_latest_stats db uuid = none := by
      simp [get_latest_stats, hh, pickLatest]
    simp only [create_stats_if_changed, hlatest, stats_changed, Bool.true_eq_false,
      if_false, Option.isSome_some, true_and]
    simp only [entityHistory, List.filter_append] at *
    simp [hh, List.filter]

/-! ## Claim C1: error isolation in the scheduler cycle -/

/-- C1 counterexample: characters `"a"` and `"b"` are both due
(`last_fetched_at` null); the collaborator raises on `"a"` and would
record `"b"`.  The cycle ends with the raise escaping the `for` loop
(flag `true`) and an empty log: the error in `"a"` prevented the due
entity `"b"` from being processed in the same cycle, contradicting the
claimed per-entity isolation. -/
theorem cycle_isolation_counterexample :
    should_fetch 15 (Character.mk "b" "p" none).last_fetched_at 0 = true ∧
    cycleLoop procStub 15 0 [Character.mk "a" "p" none, Character.mk "b" "p" none] [] =
      ([], true) := by
  refine ⟨rfl, by decide⟩

/-- C1 amended: a processing error is isolated per *cycle*, not per
entity.  If no call raises, every due entity is processed in order; if
the first raise happens at entity `c`, the due entities before `c` are
processed, the raise escapes the `for` loop at once (entities after `c`
are skipped for this cycle), and `run_tracker`'s `except` swallows it so
the loop always continues with the next cycle — it ends only when the
fuel (cancellation) runs out. -/
theorem cycle_error_handling {σ : Type} (proc : Character → σ → σ × Bool) (i now : Int) :
    ((∀ c s, (proc c s).2 = false) →
      ∀ chars s, cycleLoop proc i now chars s = (processList proc i now chars s, false)) ∧
    (∀ pre c post s,
      (∀ c' ∈ pre, ∀ s', (proc c' s').2 = false) →
      should_fetch i c.last_fetched_at now = true →
      (∀ s', (proc c s').2 = true) →
      cycleLoop proc i now (pre ++ c :: post) s =
        ((proc c (processList proc i now pre s)).1, true)) ∧
    (∀ clock getChars n s,
      run_tracker proc i clock getChars (n + 1) s =
        run_tracker proc i clock getChars n
          (cycleLoop proc i (clock n) (getChars s) s).1) := by
  refine ⟨?_, ?_, ?_⟩
  · intro hok chars
    induction chars with
    | nil => intro s; rfl
    | cons c rest ih =>
      intro s
      by_cases hd : should_fetch i c.last_fetched_at now = true
      · simp only [cycleLoop, processList, hd, if_pos]
        cases hps : proc c s with
        | mk s2 b =>
          have h2 := hok c s
          rw [hps] at h2
          simp only at h2
          subst h2
          exact ih s2
      · simp only [cycleLoop, processList]
        rw [if_neg hd, if_neg hd]
        exact ih s
  · intro pre
    induction pre with
    | nil =>
      intro c post s hpre hdue hraise
      simp only [List.nil_append, cycleLoop, processList, hdue, if_pos]
      cases hps : proc c s with
      | mk s2 b =>
        have hb := hraise s
        rw [hps] at hb
        simp only at hb
        subst hb
        rfl
    | cons c0 pre2 ih =>
      intro c post s hpre hdue hraise
      simp only [List.cons_append, cycleLoop, processList]
      by_cases hd0 : should_fetch i c0.last_fetched_at now = true
      · rw [if_pos hd0, if_pos hd0]
        cases hps : proc c0 s with
        | mk s2 b =>
          have hb := hpre c0 (by simp) s
          rw [hps] at hb
          simp only at hb
          subst hb
          exact ih c post s2 (fun c2 hc2 => hpre c2 (by simp [hc2])) hdue hraise
      · rw [if_neg hd0, if_neg hd0]
        exact ih c post s (fun c2 hc2 => hpre c2 (by simp [hc2])) hdue hraise
  · intro clock getChars n s
    rfl

/-- Witness for C1's amended theorem: with the stub collaborator, `"b"`
comes first and is processed, the raise at `"a"` then ends the cycle. -/
theorem cycle_error_handling_witness :
    cycleLoop procStub 15 0
        ([Character.mk "b" "p" none] ++ Character.mk "a" "p" none :: []) [] =
      ((procStub (Character.mk "a" "p" none)
          (processList procStub 15 0 [Character.mk "b" "p" none] [])).1, true) :=
  (cycle_error_handling procStub 15 0).2.1 [Character.mk "b" "p" none]
    (Character.mk "a" "p" none) [] []
    (by
      intro c2 hc2 s2
      simp only [List.mem_singleton] at hc2
      subst hc2
      simp [procStub])
    rfl
    (by intro s2; simp [procStub])

/-- Witness for C4's amended theorem: a store that knows only character
`"y"`, probed with the unknown id `"x"`. -/
theorem unknown_entity_spec_witness :
    update_character_last_fetched (V := Int)
        ⟨[Character.mk "y" "p" none], [], 0⟩ "x" 5 =
      (⟨[Character.mk "y" "p" none], [], 0⟩ : DB Int) ∧
    (entityHistory (V := Int) ⟨[Character.mk "y" "p" none], [], 0⟩ "x" = [] →
      (create_stats_if_changed (V := Int) ⟨[Character.mk "y" "p" none], [], 0⟩ "x"
          [("level", some 1)] 7).1.isSome = true ∧
      entityHistory (create_stats_if_changed (V := Int)
          ⟨[Character.mk "y" "p" none], [], 0⟩ "x" [("level", some 1)] 7).2 "x" =
        [⟨0, "x", 7, none, restrictStats [("level", some 1)]⟩]) :=
  unknown_entity_spec ⟨[Character.mk "y" "p" none], [], 0⟩ "x" [("level", some 1)] 7 5
    (by decide)

/-! ## Claim C6: no-op on unchanged candidate, idempotence -/

theorem pickLatest_snoc_max (l : List (CharacterStats V)) (x : CharacterStats V)
    (h : ∀ r ∈ l, r.valid_from < x.valid_from) : pickLatest (l ++ [x]) = some x := by
  induction l with
  | nil => rfl
  | cons r rest ih =>
    simp only [List.cons_append, pickLatest, List.append_eq]
    rw [ih (fun r2 h2 => h r2 (by simp [h2]))]
    have hr := h r (by simp)
    simp only [gt_iff_lt]
    rw [if_pos hr]

theorem mem_closeRow (i : Nat) (t : Int) (l : List (CharacterStats V)) (r : CharacterStats V)
    (h : r ∈ closeRow i t l) :
    ∃ r0 ∈ l, r.valid_from = r0.valid_from ∧ r.character_uuid = r0.character_uuid := by
  simp only [closeRow, List.mem_map] at h
  obtain ⟨r0, hr0, heq⟩ := h
  refine ⟨r0, hr0, ?_⟩
  subst heq
  by_cases hid : (r0.id == i) = true <;> simp [hid]

/-- When the change detector fires, the new store is the old rows (with
the open latest possibly closed, which touches neither `valid_from` nor
`character_uuid`) plus the freshly created open row at the end. -/
theorem create_changed_rows (db : DB V) (uuid : String) (sd : StatDict V) (now : Int)
    (hch : stats_changed (get_latest_stats db uuid) sd = true) :
    ∃ rows2, (create_stats_if_changed db uuid sd now).2 =
        ⟨db.characters, rows2 ++ [(⟨db.nextId, uuid, now, none, restrictStats sd⟩ : CharacterStats V)],
          db.nextId + 1⟩ ∧
      ∀ r ∈ rows2, ∃ r0 ∈ db.statsRows,
        r.valid_from = r0.valid_from ∧ r.character_uuid = r0.character_uuid := by
  simp only [create_stats_if_changed, hch, Bool.true_eq_false, if_false]
  cases hl : get_latest_stats db uuid with
  | none =>
    exact ⟨db.statsRows, rfl, fun r hr => ⟨r, hr, rfl, rfl⟩⟩
  | some l =>
    by_cases hu : l.valid_until = none
    · simp only [hu, if_pos]
      exact ⟨closeRow l.id now db.statsRows, rfl, fun r hr => mem_closeRow _ _ _ r hr⟩
    · simp only [hu, if_neg, not_false_iff]
      exact ⟨db.statsRows, rfl, fun r hr => ⟨r, hr, rfl, rfl⟩⟩

/-- C6 counterexample: build a store whose entity `"c"` already has its
latest version equal to the candidate (one setup call from the empty
store), then call `append_if_changed` twice in a row with that same
candidate: both calls return `none` and the history still has exactly
one row — zero new versions, where the claim demands exactly one. -/
theorem idempotent_counterexample :
    (create_stats_if_changed (V := Int)
        (create_stats_if_changed (V := Int) emptyDB "c" [("level", some 1)] 0).2
        "c" [("level", some 1)] 1).1 = none ∧
    (create_stats_if_changed (V := Int)
        (create_stats_if_changed (V := Int)
          (create_stats_if_changed (V := Int) emptyDB "c" [("level", some 1)] 0).2
          "c" [("level", some 1)] 1).2
        "c" [("level", some 1)] 2).1 = none ∧
    (create_stats_if_changed (V := Int)
        (create_stats_if_changed (V := Int)
          (create_stats_if_changed (V := Int) emptyDB "c" [("level", some 1)] 0).2
          "c" [("level", some 1)] 1).2
        "c" [("level", some 1)] 2).2.statsRows.length = 1 := by
  refine ⟨by decide, by decide, by decide⟩

/-- C6 amended: if the Change Detector reports no difference,
`append_if_changed` returns `none` and the store is unchanged; and for
calls at fresh instants, a second call in a row with the same candidate
always returns `none` and leaves the store unchanged — so two calls
create exactly as many versions as the first alone (at most one), never
two. -/
theorem append_if_changed_idempotent (db : DB V) (uuid : String) (sd : StatDict V)
    (now now2 : Int)
    (hfrom : ∀ r ∈ entityHistory db uuid, r.valid_from < now) :
    (stats_changed (get_latest_stats db uuid) sd = false →
      create_stats_if_changed db uuid sd now = (none, db)) ∧
    (create_stats_if_changed (create_stats_if_changed db uuid sd now).2 uuid sd now2).1 =
      none ∧
    (create_stats_if_changed (create_stats_if_changed db uuid sd now).2 uuid sd now2).2 =
      (create_stats_if_changed db uuid sd now).2 := by
  have hnoop : ∀ (d : DB V), stats_changed (get_latest_stats d uuid) sd = false →
      create_stats_if_changed d uuid sd now2 = (none, d) := by
    intro d hd
    simp [create_stats_if_changed, hd]
  refine ⟨fun h => by simp [create_stats_if_changed, h], ?_⟩
  cases hch : stats_changed (get_latest_stats db uuid) sd with
  | false =>
    have h1 : create_stats_if_changed db uuid sd now = (none, db) := by
      simp [create_stats_if_changed, hch]
    rw [h1]
    have h2 := hnoop db hch
    rw [h2]
    exact ⟨rfl, rfl⟩
  | true =>
    obtain ⟨rows2, hdb1, hmem⟩ := create_changed_rows db uuid sd now hch
    rw [hdb1]
    have hhist : entityHistory
        (⟨db.characters, rows2 ++ [(⟨db.nextId, uuid, now, none, restrictStats sd⟩ : CharacterStats V)],
          db.nextId + 1⟩ : DB V) uuid =
        rows2.filter (fun r => r.character_uuid == uuid) ++
          [(⟨db.nextId, uuid, now, none, restrictStats sd⟩ : CharacterStats V)] := by
      simp [entityHistory, List.filter_append, List.filter]
    have hlat : get_latest_stats
        (⟨db.characters, rows2 ++ [(⟨db.nextId, uuid, now, none, restrictStats sd⟩ : CharacterStats V)],
          db.nextId + 1⟩ : DB V) uuid =
        some ⟨db.nextId, uuid, now, none, restrictStats sd⟩ := by
      rw [get_latest_stats, hhist]
      apply pickLatest_snoc_max
      intro r hr
      rw [List.mem_filter] at hr
      obtain ⟨r0, hr0, hfromEq, huuidEq⟩ := hmem r hr.1
      have hru : r.character_uuid = uuid := by
        have := hr.2
        simpa using this
      have hr0hist : r0 ∈ entityHistory db uuid := by
        rw [entityHistory, List.mem_filter]
        exact ⟨hr0, by simp [← huuidEq, hru]⟩
      have := hfrom r0 hr0hist
      simpa [hfromEq] using this
    have hnc : stats_changed
        (get_latest_stats
          (⟨db.characters, rows2 ++ [(⟨db.nextId, uuid, now, none, restrictStats sd⟩ : CharacterStats V)],
            db.nextId + 1⟩ : DB V) uuid) sd = false := by
      rw [hlat]
      exact stats_changed_restrict_self _ _ _ _ _
    have := hnoop _ hnc
    rw [this]
    exact ⟨rfl, rfl⟩

/-- Witness for C6's amended theorem on a concrete store: one prior row
for `"c"` at instant 0, calls at instants 5 and 6. -/
theorem append_if_changed_idempotent_witness :
    (stats_changed
        (get_latest_stats (V := Int)
          ⟨[], [⟨0, "c", 0, none, [("level", some 1)]⟩], 1⟩ "c") [("level", some 2)] = false →
      create_stats_if_changed (V := Int)
          ⟨[], [⟨0, "c", 0, none, [("level", some 1)]⟩], 1⟩ "c" [("level", some 2)] 5 =
        (none, ⟨[], [⟨0, "c", 0, none, [("level", some 1)]⟩], 1⟩)) ∧
    (create_stats_if_changed (V := Int)
        (create_stats_if_changed (V := Int)
          ⟨[], [⟨0, "c", 0, none, [("level", some 1)]⟩], 1⟩ "c" [("level", some 2)] 5).2
        "c" [("level", some 2)] 6).1 = none ∧
    (create_stats_if_changed (V := Int)
        (create_stats_if_changed (V := Int)
          ⟨[], [⟨0, "c", 0, none, [("level", some 1)]⟩], 1⟩ "c" [("level", some 2)] 5).2
        "c" [("level", some 2)] 6).2 =
      (create_stats_if_changed (V := Int)
          ⟨[], [⟨0, "c", 0, none, [("level", some 1)]⟩], 1⟩ "c" [("level", some 2)] 5).2 :=
  append_if_changed_idempotent ⟨[], [⟨0, "c", 0, none, [("level", some 1)]⟩], 1⟩ "c"
    [("level", some 2)] 5 6 (by decide)

/-! ## Claims C2 and C3: invariants of reachable stores -/

theorem closeRow_map_id (i : Nat) (t : Int) (l : List (CharacterStats V)) :
    (closeRow i t l).map (fun r => r.id) = l.map (fun r => r.id) := by
  induction l with
  | nil => rfl
  | cons r rest ih =>
    simp only [closeRow, List.map_cons] at *
    rw [ih]
    by_cases hid : (r.id == i) = true <;> simp [hid]

theorem mem_closeRow_fields (i : Nat) (t : Int) (l : List (CharacterStats V))
    (r : CharacterStats V) (h : r ∈ closeRow i t l) :
    ∃ r0 ∈ l, r.id = r0.id ∧ r.valid_from = r0.valid_from ∧
      r.character_uuid = r0.character_uuid ∧
      (r.valid_until = r0.valid_until ∨ r.valid_until = some t) := by
  simp only [closeRow, List.mem_map] at h
  obtain ⟨r0, hr0, heq⟩ := h
  subst heq
  refine ⟨r0, hr0, ?_⟩
  by_cases hid : (r0.id == i) = true <;> simp [hid]

theorem filter_closeRow (i : Nat) (t : Int) (l : List (CharacterStats V)) (u : String) :
    (closeRow i t l).filter (fun r => r.character_uuid == u) =
      closeRow i t (l.filter (fun r => r.character_uuid == u)) := by
  induction l with
  | nil => rfl
  | cons r rest ih =>
    have hcu : ∀ x : CharacterStats V,
        (((if (x.id == i) = true then { x with valid_until := some t } else x) :
            CharacterStats V).character_uuid == u) = (x.character_uuid == u) := by
      intro x
      by_cases hid : (x.id == i) = true <;> simp [hid]
    rw [show closeRow i t (r :: rest) =
        (if (r.id == i) = true then { r with valid_until := some t } else r) ::
          closeRow i t rest from rfl]
    rw [List.filter_cons, List.filter_cons, hcu r]
    by_cases hu : (r.character_uuid == u) = true
    · rw [if_pos hu, if_pos hu]
      rw [show closeRow i t (r :: List.filter (fun x => x.character_uuid == u) rest) =
          (if (r.id == i) = true then { r with valid_until := some t } else r) ::
            closeRow i t (List.filter (fun x => x.character_uuid == u) rest) from rfl]
      rw [ih]
    · rw [if_neg hu, if_neg hu]
      exact ih

theorem closeRow_no_match (i : Nat) (t : Int) (l : List (CharacterStats V))
    (h : ∀ r ∈ l, r.id ≠ i) : closeRow i t l = l := by
  induction l with
  | nil => rfl
  | cons r rest ih =>
    have hr : (r.id == i) = false := by
      simp only [beq_eq_false_iff_ne, ne_eq]
      exact h r (by simp)
    simp only [closeRow, List.map_cons, hr, Bool.false_eq_true, if_false,
      List.cons.injEq, true_and]
    simpa [closeRow] using ih (fun r2 h2 => h r2 (by simp [h2]))

theorem closeRow_append (i : Nat) (t : Int) (l1 l2 : List (CharacterStats V)) :
    closeRow i t (l1 ++ l2) = closeRow i t l1 ++ closeRow i t l2 :=
  List.map_append _ _ _

theorem chain_head_le_last (rest : List (CharacterStats V)) (a z : CharacterStats V)
    (hc : List.Chain' (fun x y => x.valid_from < y.valid_from) (a :: rest))
    (hz : (a :: rest).getLast? = some z) : a.valid_from ≤ z.valid_from := by
  induction rest generalizing a with
  | nil =>
    simp only [List.getLast?_singleton, Option.some.injEq] at hz
    subst hz
    exact le_refl _
  | cons b rest2 ih =>
    rw [List.chain'_cons] at hc
    have h2 := ih b hc.2 (by rw [← List.getLast?_cons_cons (a := a)]; exact hz)
    have h1 := hc.1
    omega

theorem pickLatest_sorted (h : List (CharacterStats V))
    (hc : List.Chain' (fun x y => x.valid_from < y.valid_from) h) :
    pickLatest h = h.getLast? := by
  induction h with
  | nil => rfl
  | cons a rest ih =>
    cases rest with
    | nil => rfl
    | cons b rest2 =>
      rw [List.chain'_cons] at hc
      have ihr := ih hc.2
      obtain ⟨z, hz⟩ : ∃ z, (b :: rest2).getLast? = some z := by
        cases e : (b :: rest2).getLast? with
        | none =>
          exact absurd e (by simp [List.getLast?_eq_none_iff])
        | some z => exact ⟨z, rfl⟩
      have hle : b.valid_from ≤ z.valid_from := chain_head_le_last rest2 b z hc.2 hz
      have hgt : z.valid_from > a.valid_from := lt_of_lt_of_le hc.1 hle
      rw [pickLatest, ihr, hz]
      simp only [hgt, if_pos]
      rw [List.getLast?_cons_cons, hz]

theorem histShape_chainOk : ∀ (h : List (CharacterStats V)), HistShape h → chainOk h = true := by
  intro h
  induction h with
  | nil => intro _; rfl
  | cons a rest ih =>
    intro hs
    obtain ⟨hchain, hlast⟩ := hs
    cases rest with
    | nil => rfl
    | cons b rest2 =>
      rw [List.chain'_cons] at hchain
      obtain ⟨⟨hlt, t, ht, hle⟩, hc2⟩ := hchain
      have h2 : chainOk (b :: rest2) = true :=
        ih ⟨hc2, fun l hl => hlast l (by rw [List.getLast?_cons_cons]; exact hl)⟩
      simp [chainOk, ht, h2, hle, le_of_lt hlt]

theorem histShape_openCount : ∀ (h : List (CharacterStats V)), HistShape h → openCount h ≤ 1 := by
  intro h
  induction h with
  | nil => intro _; exact Nat.zero_le 1
  | cons a rest ih =>
    intro hs
    obtain ⟨hchain, hlast⟩ := hs
    cases rest with
    | nil =>
      cases hval : a.valid_until <;> simp [openCount, List.filter, hval]
    | cons b rest2 =>
      rw [List.chain'_cons] at hchain
      obtain ⟨⟨hlt, t, ht, hle⟩, hc2⟩ := hchain
      have h2 := ih ⟨hc2, fun l hl => hlast l (by rw [List.getLast?_cons_cons]; exact hl)⟩
      simpa [openCount, List.filter_cons, ht] using h2

theorem histShape_unique_open : ∀ (h : List (CharacterStats V)), HistShape h →
    ∀ r, h.getLast? = some r → ∀ r2 ∈ h, r2.valid_until = none → r2 = r := by
  intro h
  induction h with
  | nil => intro _ r hr; simp at hr
  | cons a rest ih =>
    intro hs r hr r2 hmem hopen
    obtain ⟨hchain, hlast⟩ := hs
    cases rest with
    | nil =>
      simp only [List.getLast?_singleton, Option.some.injEq] at hr
      simp only [List.mem_singleton] at hmem
      rw [hmem, hr]
    | cons b rest2 =>
      rw [List.chain'_cons] at hchain
      obtain ⟨⟨hlt, t, ht, hle⟩, hc2⟩ := hchain
      rw [List.getLast?_cons_cons] at hr
      rcases List.mem_cons.mp hmem with rfl | hmem2
      · rw [ht] at hopen
        exact absurd hopen (by simp)
      · exact ih ⟨hc2, fun l hl => hlast l (by rw [List.getLast?_cons_cons]; exact hl)⟩
          r hr r2 hmem2 hopen

theorem inv_empty (b : Int) : Inv (emptyDB : DB V) b := by
  refine ⟨?_, ?_, ?_, ?_⟩
  · intro r hr; simp [emptyDB] at hr
  · simp [emptyDB]
  · intro r hr; simp [emptyDB] at hr
  · intro u
    constructor
    · simp [entityHistory, emptyDB]
    · intro l hl; simp [entityHistory, emptyDB] at hl

/-- One `create_stats_if_changed` call preserves the store invariant,
provided the call's instant is later than everything already stored. -/
theorem inv_step (db : DB V) (b : Int) (uuid : String) (sd : StatDict V) (now : Int)
    (hInv : Inv db b) (hb : b < now) :
    Inv (create_stats_if_changed db uuid sd now).2 now := by
  obtain ⟨hid, hnodup, htime, hshape⟩ := hInv
  cases hch : stats_changed (get_latest_stats db uuid) sd with
  | false =>
    have hres : create_stats_if_changed db uuid sd now = (none, db) := by
      simp [create_stats_if_changed, hch]
    rw [hres]
    exact ⟨hid, hnodup,
      fun r hr => ⟨le_trans (htime r hr).1 (le_of_lt hb),
        fun t ht => le_trans ((htime r hr).2 t ht) (le_of_lt hb)⟩, hshape⟩
  | true =>
    rcases List.eq_nil_or_concat' (entityHistory db uuid) with hnil | ⟨pref, lastRow, hconcat⟩
    · -- the entity had no history: no close, just the new open row
      have hlat : get_latest_stats db uuid = none := by
        rw [get_latest_stats, hnil]
        rfl
      have hres : (create_stats_if_changed db uuid sd now).2 =
          ⟨db.characters,
            db.statsRows ++ [(⟨db.nextId, uuid, now, none, restrictStats sd⟩ : CharacterStats V)],
            db.nextId + 1⟩ := by
        simp [create_stats_if_changed, hch, hlat, stats_changed]
      rw [hres]
      refine ⟨?_, ?_, ?_, ?_⟩
      · show ∀ r ∈ db.statsRows ++ [(⟨db.nextId, uuid, now, none, restrictStats sd⟩ : CharacterStats V)],
          r.id < db.nextId + 1
        intro r hr
        rcases List.mem_append.mp hr with h1 | h2
        · exact Nat.lt_succ_of_lt (hid r h1)
        · rw [List.mem_singleton] at h2
          subst h2
          exact Nat.lt_succ_self _
      · show ((db.statsRows ++ [(⟨db.nextId, uuid, now, none, restrictStats sd⟩ : CharacterStats V)]).map
          (fun r => r.id)).Nodup
        rw [List.map_append, List.nodup_append]
        refine ⟨hnodup, List.nodup_singleton _, ?_⟩
        intro a ha ha2
        simp only [List.map_cons, List.map_nil, List.mem_singleton] at ha2
        subst ha2
        obtain ⟨r, hr, hrid⟩ := List.mem_map.mp ha
        exact absurd hrid (Nat.ne_of_lt (hid r hr))
      · show ∀ r ∈ db.statsRows ++ [(⟨db.nextId, uuid, now, none, restrictStats sd⟩ : CharacterStats V)],
          r.valid_from ≤ now ∧ ∀ t, r.valid_until = some t → t ≤ now
        intro r hr
        rcases List.mem_append.mp hr with h1 | h2
        · exact ⟨le_trans (htime r h1).1 (le_of_lt hb),
            fun t ht => le_trans ((htime r h1).2 t ht) (le_of_lt hb)⟩
        · rw [List.mem_singleton] at h2
          subst h2
          exact ⟨le_refl now, fun t ht => by simp at ht⟩
      · intro u
        show HistShape ((db.statsRows ++
          [(⟨db.nextId, uuid, now, none, restrictStats sd⟩ : CharacterStats V)]).filter
            (fun r => r.character_uuid == u))
        rw [List.filter_append]
        by_cases hu : uuid = u
        · subst hu
          have h1 : db.statsRows.filter (fun r => r.character_uuid == uuid) = [] := hnil
          have h2 : List.filter (fun r => r.character_uuid == uuid)
              [(⟨db.nextId, uuid, now, none, restrictStats sd⟩ : CharacterStats V)] =
              [(⟨db.nextId, uuid, now, none, restrictStats sd⟩ : CharacterStats V)] := by
            simp [List.filter]
          rw [h1, h2]
          constructor
          · simp
          · intro l hl
            simp only [List.nil_append, List.getLast?_singleton, Option.some.injEq] at hl
            subst hl
            rfl
        · have h2 : List.filter (fun r => r.character_uuid == u)
              [(⟨db.nextId, uuid, now, none, restrictStats sd⟩ : CharacterStats V)] = [] := by
            have hbe : (uuid == u) = false := by simp [hu]
            simp [List.filter, hbe]
          rw [h2, List.append_nil]
          exact hshape u
    · -- nonempty history: the open last row is closed, the new row appended
      have hsorted : List.Chain' (fun x y => x.valid_from < y.valid_from)
          (entityHistory db uuid) :=
        List.Chain'.imp (fun a b hab => hab.1) (hshape uuid).1
      have hlastq : (entityHistory db uuid).getLast? = some lastRow := by
        rw [hconcat, List.getLast?_append_cons]
        rfl
      have hlat : get_latest_stats db uuid = some lastRow := by
        rw [get_latest_stats, pickLatest_sorted _ hsorted, hlastq]
      have hopen : lastRow.valid_until = none := (hshape uuid).2 lastRow hlastq
      rw [hlat] at hch
      have hres : (create_stats_if_changed db uuid sd now).2 =
          ⟨db.characters,
            closeRow lastRow.id now db.statsRows ++
              [(⟨db.nextId, uuid, now, none, restrictStats sd⟩ : CharacterStats V)],
            db.nextId + 1⟩ := by
        simp [create_stats_if_changed, hch, hlat, hopen]
      have hlastMem : lastRow ∈ entityHistory db uuid := by
        rw [hconcat]
        simp
      have hlastRows : lastRow ∈ db.statsRows := (List.mem_filter.mp hlastMem).1
      have hlastUuid : lastRow.character_uuid = uuid := by
        have h2 := (List.mem_filter.mp hlastMem).2
        simpa using h2
      have hinj : ∀ x ∈ db.statsRows, ∀ y ∈ db.statsRows, x.id = y.id → x = y :=
        List.inj_on_of_nodup_map hnodup
      have hsub : List.Sublist ((entityHistory db uuid).map (fun r => r.id))
          (db.statsRows.map (fun r => r.id)) :=
        List.Sublist.map _ (List.filter_sublist _)
      have hnodupHist : ((entityHistory db uuid).map (fun r => r.id)).Nodup :=
        hsub.nodup hnodup
      have hprefIds : ∀ r ∈ pref, r.id ≠ lastRow.id := by
        intro r hr hEq
        rw [hconcat, List.map_append, List.nodup_append] at hnodupHist
        obtain ⟨-, -, hdisj⟩ := hnodupHist
        exact hdisj (List.mem_map_of_mem _ hr) (by simp [hEq])
      rw [hres]
      refine ⟨?_, ?_, ?_, ?_⟩
      · show ∀ r ∈ closeRow lastRow.id now db.statsRows ++
          [(⟨db.nextId, uuid, now, none, restrictStats sd⟩ : CharacterStats V)], r.id < db.nextId + 1
        intro r hr
        rcases List.mem_append.mp hr with h1 | h2
        · obtain ⟨r0, hr0, hidEq, -, -, -⟩ := mem_closeRow_fields _ _ _ r h1
          rw [hidEq]
          exact Nat.lt_succ_of_lt (hid r0 hr0)
        · rw [List.mem_singleton] at h2
          subst h2
          exact Nat.lt_succ_self _
      · show (((closeRow lastRow.id now db.statsRows ++
          [(⟨db.nextId, uuid, now, none, restrictStats sd⟩ : CharacterStats V)]).map (fun r => r.id))).Nodup
        rw [List.map_append, closeRow_map_id, List.nodup_append]
        refine ⟨hnodup, List.nodup_singleton _, ?_⟩
        intro a ha ha2
        simp only [List.map_cons, List.map_nil, List.mem_singleton] at ha2
        subst ha2
        obtain ⟨r, hr, hrid⟩ := List.mem_map.mp ha
        exact absurd hrid (Nat.ne_of_lt (hid r hr))
      · show ∀ r ∈ closeRow lastRow.id now db.statsRows ++
          [(⟨db.nextId, uuid, now, none, restrictStats sd⟩ : CharacterStats V)],
          r.valid_from ≤ now ∧ ∀ t, r.valid_until = some t → t ≤ now
        intro r hr
        rcases List.mem_append.mp hr with h1 | h2
        · obtain ⟨r0, hr0, -, hfromEq, -, huntil⟩ := mem_closeRow_fields _ _ _ r h1
          refine ⟨?_, ?_⟩
          · rw [hfromEq]
            exact le_trans (htime r0 hr0).1 (le_of_lt hb)
          · intro t ht
            rcases huntil with he | he
            · rw [he] at ht
              exact le_trans ((htime r0 hr0).2 t ht) (le_of_lt hb)
            · rw [he] at ht
              simp only [Option.some.injEq] at ht
              omega
        · rw [List.mem_singleton] at h2
          subst h2
          exact ⟨le_refl now, fun t ht => by simp at ht⟩
      · intro u
        show HistShape ((closeRow lastRow.id now db.statsRows ++
          [(⟨db.nextId, uuid, now, none, restrictStats sd⟩ : CharacterStats V)]).filter
            (fun r => r.character_uuid == u))
        rw [List.filter_append, filter_closeRow]
        by_cases hu : uuid = u
        · subst hu
          have hEq1 : db.statsRows.filter (fun r => r.character_uuid == uuid) =
              pref ++ [lastRow] := hconcat
          rw [hEq1, closeRow_append, closeRow_no_match _ _ _ hprefIds]
          have hsingle : closeRow lastRow.id now [lastRow] =
              [{ lastRow with valid_until := some now }] := by
            simp [closeRow]
          rw [hsingle]
          have hnewf : List.filter (fun r => r.character_uuid == uuid)
              [(⟨db.nextId, uuid, now, none, restrictStats sd⟩ : CharacterStats V)] =
              [(⟨db.nextId, uuid, now, none, restrictStats sd⟩ : CharacterStats V)] := by
            simp [List.filter]
          rw [hnewf]
          have hchain0 := (hshape uuid).1
          rw [hconcat, List.chain'_append] at hchain0
          obtain ⟨hcPref, -, hlink⟩ := hchain0
          constructor
          · rw [List.chain'_append]
            refine ⟨?_, List.chain'_singleton _, ?_⟩
            · rw [List.chain'_append]
              refine ⟨hcPref, List.chain'_singleton _, ?_⟩
              intro x hx y hy
              simp only [List.head?_cons, Option.mem_def, Option.some.injEq] at hy
              subst hy
              exact hlink x hx lastRow (by simp)
            · intro x hx y hy
              simp only [List.head?_cons, Option.mem_def, Option.some.injEq] at hy
              subst hy
              rw [List.getLast?_append_cons] at hx
              simp only [List.getLast?_singleton, Option.mem_def, Option.some.injEq] at hx
              subst hx
              refine ⟨lt_of_le_of_lt (htime lastRow hlastRows).1 hb, now, rfl, le_refl now⟩
          · intro l hl
            rw [List.getLast?_append_cons] at hl
            simp only [List.getLast?_singleton, Option.some.injEq] at hl
            subst hl
            rfl
        · have hnewf : List.filter (fun r => r.character_uuid == u)
              [(⟨db.nextId, uuid, now, none, restrictStats sd⟩ : CharacterStats V)] = [] := by
            have hbe : (uuid == u) = false := by simp [hu]
            simp [List.filter, hbe]
          rw [hnewf, List.append_nil]
          have hnm : ∀ r ∈ db.statsRows.filter (fun r => r.character_uuid == u),
              r.id ≠ lastRow.id := by
            intro r hr hEq
            have hrRows := (List.mem_filter.mp hr).1
            have hrU : r.character_uuid = u := by
              have h3 := (List.mem_filter.mp hr).2
              simpa using h3
            have hre : r = lastRow := hinj r hrRows lastRow hlastRows hEq
            rw [hre] at hrU
            exact hu (hlastUuid ▸ hrU)
          rw [closeRow_no_match _ _ _ hnm]
          exact hshape u

/-- Any sequence of calls whose instants strictly increase (above a base
bound valid for the starting store) preserves the invariant. -/
theorem runOps_inv (ops : List (StoreOp V)) (db : DB V) (b : Int)
    (hInv : Inv db b) (hchain : List.Chain (· < ·) b (ops.map StoreOp.now)) :
    ∃ b2, Inv (ops.foldl applyOp db) b2 := by
  induction ops generalizing db b with
  | nil => exact ⟨b, hInv⟩
  | cons op rest ih =>
    rw [List.map_cons, List.chain_cons] at hchain
    exact ih (applyOp db op) op.now
      (inv_step db b op.uuid op.stats_data op.now hInv hchain.1) hchain.2

/-- C2: in any store reached from the empty store by a sequence of
`create_stats_if_changed` calls at strictly increasing instants, every
entity's history (already in `valid_from` order, as `chainOk` checks)
satisfies `valid_until[i] <= valid_from[i+1]` for each adjacent pair and
has at most one open version. -/
theorem versioning_invariant (ops : List (StoreOp V)) (b : Int) (uuid : String)
    (hchain : List.Chain (· < ·) b (ops.map StoreOp.now)) :
    chainOk (entityHistory (runOps ops) uuid) = true ∧
    openCount (entityHistory (runOps ops) uuid) ≤ 1 := by
  obtain ⟨b2, hInv⟩ := runOps_inv ops emptyDB b (inv_empty b) hchain
  exact ⟨histShape_chainOk _ (hInv.2.2.2 uuid), histShape_openCount _ (hInv.2.2.2 uuid)⟩

/-- Witness for C2: two appends for `"c"` and one for `"d"` at instants
0 < 1 < 2 (base bound -1). -/
theorem versioning_invariant_witness :
    chainOk (entityHistory (runOps (V := Int)
      [⟨"c", 0, [("level", some 1)]⟩, ⟨"c", 1, [("level", some 2)]⟩,
       ⟨"d", 2, [("level", some 3)]⟩]) "c") = true ∧
    openCount (entityHistory (runOps (V := Int)
      [⟨"c", 0, [("level", some 1)]⟩, ⟨"c", 1, [("level", some 2)]⟩,
       ⟨"d", 2, [("level", some 3)]⟩]) "c") ≤ 1 :=
  versioning_invariant
    [⟨"c", 0, [("level", some 1)]⟩, ⟨"c", 1, [("level", some 2)]⟩,
     ⟨"d", 2, [("level", some 3)]⟩] (-1) "c" (by simp [List.chain_cons])

/-- C3: in any store reached from the empty store by
`create_stats_if_changed` calls at strictly increasing instants,
`get_latest_stats` returns `none` exactly when the entity has no
history, and otherwise returns the entity's unique open version — never
a closed one. -/
theorem latest_returns_open (ops : List (StoreOp V)) (b : Int) (uuid : String)
    (hchain : List.Chain (· < ·) b (ops.map StoreOp.now)) :
    (entityHistory (runOps ops) uuid = [] → get_latest_stats (runOps ops) uuid = none) ∧
    (entityHistory (runOps ops) uuid ≠ [] →
      ∃ r, get_latest_stats (runOps ops) uuid = some r ∧ r.valid_until = none ∧
        r ∈ entityHistory (runOps ops) uuid ∧
        ∀ r2 ∈ entityHistory (runOps ops) uuid, r2.valid_until = none → r2 = r) := by
  obtain ⟨b2, hInv⟩ := runOps_inv ops emptyDB b (inv_empty b) hchain
  have hshape := hInv.2.2.2 uuid
  have hsorted : List.Chain' (fun x y => x.valid_from < y.valid_from)
      (entityHistory (runOps ops) uuid) :=
    List.Chain'.imp (fun a c hab => hab.1) hshape.1
  constructor
  · intro hnil
    rw [get_latest_stats, hnil]
    rfl
  · intro hne
    rcases List.eq_nil_or_concat' (entityHistory (runOps ops) uuid) with h0 | ⟨pref, lastRow, hconcat⟩
    · exact absurd h0 hne
    · have hlastq : (entityHistory (runOps ops) uuid).getLast? = some lastRow := by
        rw [hconcat, List.getLast?_append_cons]
        rfl
      refine ⟨lastRow, ?_, ?_, ?_, ?_⟩
      · rw [get_latest_stats, pickLatest_sorted _ hsorted, hlastq]
      · exact hshape.2 lastRow hlastq
      · rw [hconcat]
        simp
      · exact histShape_unique_open _ hshape lastRow hlastq

/-- Witness for C3 on the same concrete call sequence. -/
theorem latest_returns_open_witness :
    (entityHistory (runOps (V := Int)
        [⟨"c", 0, [("level", some 1)]⟩, ⟨"c", 1, [("level", some 2)]⟩,
         ⟨"d", 2, [("level", some 3)]⟩]) "c" = [] →
      get_latest_stats (runOps (V := Int)
        [⟨"c", 0, [("level", some 1)]⟩, ⟨"c", 1, [("level", some 2)]⟩,
         ⟨"d", 2, [("level", some 3)]⟩]) "c" = none) ∧
    (entityHistory (runOps (V := Int)
        [⟨"c", 0, [("level", some 1)]⟩, ⟨"c", 1, [("level", some 2)]⟩,
         ⟨"d", 2, [("level", some 3)]⟩]) "c" ≠ [] →
      ∃ r, get_latest_stats (runOps (V := Int)
          [⟨"c", 0, [("level", some 1)]⟩, ⟨"c", 1, [("level", some 2)]⟩,
           ⟨"d", 2, [("level", some 3)]⟩]) "c" = some r ∧
        r.valid_until = none ∧
        r ∈ entityHistory (runOps (V := Int)
          [⟨"c", 0, [("level", some 1)]⟩, ⟨"c", 1, [("level", some 2)]⟩,
           ⟨"d", 2, [("level", some 3)]⟩]) "c" ∧
        ∀ r2 ∈ entityHistory (runOps (V := Int)
          [⟨"c", 0, [("level", some 1)]⟩, ⟨"c", 1, [("level", some 2)]⟩,
           ⟨"d", 2, [("level", some 3)]⟩]) "c",
          r2.valid_until = none → r2 = r) :=
  latest_returns_open
    [⟨"c", 0, [("level", some 1)]⟩, ⟨"c", 1, [("level", some 2)]⟩,
     ⟨"d", 2, [("level", some 3)]⟩] (-1) "c" (by simp [List.chain_cons])

/-! ## Claim C9: bulk replay -/

theorem stats_changed_migRow (u : String) (n : Nat) (t0 : Int) (s0 s : StatDict V) :
    stats_changed (some (migRow u n t0 s0)) s = snapshotsDiffer s0 s := by
  simp only [stats_changed, migRow, snapshotsDiffer]
  apply any_congr_vals
  intro f hf
  simp [dictGet_restrict s0 f hf]

theorem closeLastRow_snoc (t : Int) (acc : List (CharacterStats V)) (u : String) (n : Nat)
    (t0 : Int) (s0 : StatDict V) :
    closeLastRow t (acc ++ [migRow u n t0 s0]) =
      acc ++ [{ migRow u n t0 s0 with valid_until := some t }] := by
  have h1 : (acc ++ [migRow u n t0 s0]).getLast? = some (migRow u n t0 s0) := by
    rw [List.getLast?_append_cons]
    rfl
  simp [closeLastRow, h1, migRow, List.dropLast_concat]

theorem migrateRows_spec_aux (u : String) :
    ∀ (rest : List (Int × StatDict V)) (closed : List (CharacterStats V)) (t0 : Int)
      (s0 : StatDict V),
    migrateRows u rest (closed ++ [migRow u closed.length t0 s0]) =
      closed ++ specReplay u t0 s0 closed.length rest := by
  intro rest
  induction rest with
  | nil => intro closed t0 s0; rfl
  | cons p rest2 ih =>
    intro closed t0 s0
    obtain ⟨t, s⟩ := p
    have hlast : (closed ++ [migRow u closed.length t0 s0]).getLast? =
        some (migRow u closed.length t0 s0) := by
      rw [List.getLast?_append_cons]
      rfl
    simp only [migrateRows, specReplay, hlast, stats_changed_migRow]
    by_cases hd : snapshotsDiffer s0 s = true
    · rw [if_pos hd, if_pos hd]
      rw [closeLastRow_snoc]
      have hlen : (closed ++ [migRow u closed.length t0 s0]).length = closed.length + 1 := by
        simp
      rw [hlen]
      have h2 := ih (closed ++ [{ migRow u closed.length t0 s0 with valid_until := some t }])
        t s
      have hlen2 : (closed ++ [{ migRow u closed.length t0 s0 with
          valid_until := some t }]).length = closed.length + 1 := by
        simp
      rw [hlen2] at h2
      rw [h2, List.append_assoc, List.singleton_append]
    · rw [if_neg hd, if_neg hd]
      exact ih closed t0 s0

/-- C9: the per-entity replay loop of `migrate_parquet` creates exactly
one `StatVersion` per maximal run of consecutive snapshots that agree on
every comparable field — precisely the reference `specReplayTop`, which
emits one row per run with `valid_from` the timestamp of the run's first
snapshot and `valid_until` the next row's `valid_from` (`none` for the
last).  The second conjunct instantiates the spec's 5-snapshot /
3-state example. -/
theorem bulk_replay_runs (u : String) (rows : List (Int × StatDict V)) :
    migrateRows u rows [] = specReplayTop u rows ∧
    migrateRows (V := Int) "c"
        [(0, [("level", some 1)]), (1, [("level", some 1)]), (2, [("level", some 2)]),
         (3, [("level", some 2)]), (4, [("level", some 3)])] [] =
      [⟨0, "c", 0, some 2, [("level", some 1)]⟩,
       ⟨1, "c", 2, some 4, [("level", some 2)]⟩,
       ⟨2, "c", 4, none, [("level", some 3)]⟩] := by
  constructor
  · cases rows with
    | nil => rfl
    | cons p rest =>
      obtain ⟨t, s⟩ := p
      show migrateRows u ((t, s) :: rest) [] = specReplay u t s 0 rest
      have h1 : stats_changed (([] : List (CharacterStats V)).getLast?) s = true := rfl
      simp only [migrateRows, h1, if_true]
      have h2 := migrateRows_spec_aux u rest [] t s
      simpa [closeLastRow] using h2
  · decide

/-! ## Claim C10: extractor normalization of empty structured fields -/

/-- C10: the extractor returns `None` for an empty (or absent)
skill-points, professions, dungeons-list or raids-list mapping and an
empty (or absent) quest list, so the extracted snapshot is identical in
the two cases, and — by the last conjuncts — feeding the empty-variant
snapshot as the stored version and the absent-variant snapshot as the
candidate never triggers a new version. -/
theorem extractor_normalizes_empty (c : ApiCharacter V) (tl : Option V) (i : Nat)
    (u : String) (t : Int) :
    extractStatsOfChar { c with skillPoints := some [] } =
      extractStatsOfChar { c with skillPoints := none } ∧
    extractStatsOfChar { c with professions := some [] } =
      extractStatsOfChar { c with professions := none } ∧
    extractStatsOfChar { c with dungeons := some ⟨tl, some []⟩ } =
      extractStatsOfChar { c with dungeons := some ⟨tl, none⟩ } ∧
    extractStatsOfChar { c with raids := some ⟨tl, some []⟩ } =
      extractStatsOfChar { c with raids := some ⟨tl, none⟩ } ∧
    extractStatsOfChar { c with quests := some [] } =
      extractStatsOfChar { c with quests := none } ∧
    stats_changed (some ⟨i, u, t, none,
        restrictStats (extractStatsOfChar { c with skillPoints := some [] })⟩)
      (extractStatsOfChar { c with skillPoints := none }) = false ∧
    stats_changed (some ⟨i, u, t, none,
        restrictStats (extractStatsOfChar { c with professions := some [] })⟩)
      (extractStatsOfChar { c with professions := none }) = false ∧
    stats_changed (some ⟨i, u, t, none,
        restrictStats (extractStatsOfChar { c with dungeons := some ⟨tl, some []⟩ })⟩)
      (extractStatsOfChar { c with dungeons := some ⟨tl, none⟩ }) = false ∧
    stats_changed (some ⟨i, u, t, none,
        restrictStats (extractStatsOfChar { c with raids := some ⟨tl, some []⟩ })⟩)
      (extractStatsOfChar { c with raids := some ⟨tl, none⟩ }) = false ∧
    stats_changed (some ⟨i, u, t, none,
        restrictStats (extractStatsOfChar { c with quests := some [] })⟩)
      (extractStatsOfChar { c with quests := none }) = false := by
  refine ⟨rfl, rfl, rfl, rfl, rfl, ?_, ?_, ?_, ?_, ?_⟩ <;>
    exact stats_changed_restrict_self i u t none _

end Wynntracker
